import Mathlib

/-!
A verification development for the `vecshard` crate: O(1) splitting of a
`Vec<T>` into reference-counted shards, and a three-tier merge engine
(`merge_inplace` / `merge_noalloc` / `merge`) that recombines shards as
cheaply as geometry allows.

Memory model. Every backing allocation is a `List α` holding its capacity
slots. A heap is the list of all live allocations, indexed by allocation id;
the id plays the role of the identity of the shard's `Arc<VecDropper>`
handle, which the code compares with `Arc::ptr_eq`. A `VecShard` is a
descriptor: the allocation id of its handle, the offset of its `data`
pointer from the allocation base, and its `len`. Rust raw-pointer
arithmetic inside one allocation becomes offset arithmetic; `ptr::copy`
(memmove semantics, overlap allowed) and `slice::rotate_left` become the
list operations `ptrCopy` and `rotateRange` below. The `Arc` strong count
is external, concurrently shared state: the operations that sample it
(`merge_noalloc` via `Arc::strong_count`, the `Into<Vec>` conversion via
`Arc::try_unwrap`, `drop` via the handle release) receive the sampled
count as an explicit `strongCount` argument.
-/

namespace Vecshard

/-- The bytes of `slice::from_raw_parts(base + off, n)`: read `n` slots of an
allocation starting at offset `off`. -/
def readRange (mem : List α) (off n : Nat) : List α :=
  (mem.drop off).take n

/-- Overwrite the slots starting at offset `off` with `xs`, leaving every
other slot of the allocation unchanged. -/
def writeRange (mem : List α) (off : Nat) (xs : List α) : List α :=
  mem.take off ++ xs ++ mem.drop (off + xs.length)

/-- `ptr::copy(base + src, base + dst, n)`: memmove semantics, source and
destination ranges may overlap. -/
def ptrCopy (mem : List α) (src dst n : Nat) : List α :=
  writeRange mem dst (readRange mem src n)

/-- `slice::from_raw_parts_mut(base + off, n).rotate_left(k)`. For `k ≤ n`,
`List.rotateLeft` agrees with Rust's `rotate_left` (both are the identity at
`k = n`). -/
def rotateRange (mem : List α) (off n k : Nat) : List α :=
  writeRange mem off ((readRange mem off n).rotateLeft k)

/-- A shard descriptor: the identity of its `Arc<VecDropper>` handle
(allocation id), its `data` pointer as an offset from the allocation base,
and its `len`. -/
structure VecShard where
  allocId : Nat
  data : Nat
  len : Nat
deriving DecidableEq

/-- `error::WouldMove`: the reasons an in-place merge was unsuccessful. -/
inductive WouldMove where
  | DifferentAllocations
  | NotAdjacent
  | WrongOrder
deriving DecidableEq

/-- `error::WouldAlloc`: the reasons a no-alloc merge was unsuccessful. -/
inductive WouldAlloc where
  | DifferentAllocations
  | OtherShardsLeft
deriving DecidableEq

/-- `error::CantMerge`: carries both rejected shards back to the caller
together with the reason, so nothing is lost on failure. -/
structure CantMerge (E : Type) where
  left : VecShard
  right : VecShard
  reason : E
deriving DecidableEq

/-- The heap of live backing allocations, indexed by allocation id. -/
structure Heap (α : Type) where
  mems : List (List α)
deriving DecidableEq

/-- The slots of allocation `id`. -/
def Heap.memOf (h : Heap α) (id : Nat) : List α :=
  (h.mems[id]?).getD []

/-- Rewrite the slots of allocation `id` in place. -/
def Heap.write (h : Heap α) (id : Nat) (m : List α) : Heap α :=
  ⟨h.mems.set id m⟩

/-- Obtain a brand-new backing allocation holding `m`, returning its id. -/
def Heap.alloc (h : Heap α) (m : List α) : Heap α × Nat :=
  (⟨h.mems ++ [m]⟩, h.mems.length)

/-- The element sequence a shard owns: `len` slots starting at its `data`
pointer. -/
def VecShard.elems (s : VecShard) (h : Heap α) : List α :=
  readRange (h.memOf s.allocId) s.data s.len

/-- The shard invariant: the allocation id is live and the range
`[data, data + len)` lies within the allocation's capacity. -/
def VecShard.Valid (s : VecShard) (h : Heap α) : Prop :=
  s.allocId < h.mems.length ∧ s.data + s.len ≤ (h.memOf s.allocId).length

/-- The element ranges of two live shards over one allocation never overlap
(the crate's disjointness invariant, enforced by construction). -/
def VecShard.Disjoint (s t : VecShard) : Prop :=
  s.data + s.len ≤ t.data ∨ t.data + t.len ≤ s.data

instance (s : VecShard) (h : Heap α) : Decidable (s.Valid h) :=
  inferInstanceAs (Decidable (_ ∧ _))

instance (s t : VecShard) : Decidable (s.Disjoint t) :=
  inferInstanceAs (Decidable (_ ∨ _))

/-- `VecShard::merge_inplace`: O(1), touches no slots. Succeeds exactly when
both handles are the same allocation (`Arc::ptr_eq`) and
`left.data + left.len == right.data`; on success the result reuses left's
handle and `data` with the combined length. Failure reasons are decided in
the source's order: different allocations first, then wrong order, then not
adjacent. -/
def merge_inplace (left right : VecShard) :
    Except (CantMerge WouldMove) VecShard :=
  if left.allocId ≠ right.allocId then
    .error ⟨left, right, .DifferentAllocations⟩
  else if left.data + left.len = right.data then
    .ok ⟨left.allocId, left.data, left.len + right.len⟩
  else if right.data + right.len = left.data then
    .error ⟨left, right, .WrongOrder⟩
  else
    .error ⟨left, right, .NotAdjacent⟩

/-- `VecShard::merge_noalloc`: first tries `merge_inplace`. On
`DifferentAllocations` it fails immediately. On `WrongOrder` it rotates the
combined range starting at right's data pointer left by `right.len`. On
`NotAdjacent` with exactly two live handles (`Arc::strong_count == 2`,
sampled as `strongCount`) it shuffles both ranges together inside the
allocation: if right sits at the lower address it copies the shorter side
next to the longer one and rotates; otherwise it copies right's slots to
directly follow left's. Returns the possibly rewritten heap with the
result; every failure returns the heap and both shards unchanged. -/
def merge_noalloc (strongCount : Nat) (h : Heap α) (left right : VecShard) :
    Heap α × Except (CantMerge WouldAlloc) VecShard :=
  match merge_inplace left right with
  | .ok shard => (h, .ok shard)
  | .error cm =>
    if cm.reason = .DifferentAllocations then
      (h, .error ⟨cm.left, cm.right, .DifferentAllocations⟩)
    else
      let ldata := cm.left.data
      let llen := cm.left.len
      let rdata := cm.right.data
      let rlen := cm.right.len
      let mem := h.memOf cm.left.allocId
      if cm.reason = .WrongOrder then
        (h.write cm.left.allocId (rotateRange mem rdata (llen + rlen) rlen),
         .ok ⟨cm.left.allocId, rdata, llen + rlen⟩)
      else if cm.reason = .NotAdjacent ∧ strongCount = 2 then
        if rdata < ldata then
          if llen < rlen then
            (h.write cm.left.allocId
              (rotateRange (ptrCopy mem ldata (rdata + rlen) llen)
                rdata (rlen + llen) rlen),
             .ok ⟨cm.left.allocId, rdata, llen + rlen⟩)
          else
            (h.write cm.left.allocId
              (rotateRange (ptrCopy mem rdata (ldata - rlen) rlen)
                (ldata - rlen) (rlen + llen) rlen),
             .ok ⟨cm.left.allocId, ldata - rlen, llen + rlen⟩)
        else
          (h.write cm.left.allocId (ptrCopy mem rdata (ldata + llen) rlen),
           .ok ⟨cm.left.allocId, ldata, llen + rlen⟩)
      else
        (h, .error ⟨cm.left, cm.right, .OtherShardsLeft⟩)

/-- `VecShard::merge`: the total top-level merge. Tries `merge_noalloc`; on
any failure it allocates a brand-new backing allocation of the combined
length and copies both ranges into it in order. -/
def merge (strongCount : Nat) (h : Heap α) (left right : VecShard) :
    Heap α × VecShard :=
  match merge_noalloc strongCount h left right with
  | (h2, .ok shard) => (h2, shard)
  | (h2, .error cm) =>
    let p := h2.alloc (cm.left.elems h2 ++ cm.right.elems h2)
    (p.1, ⟨p.2, 0, cm.left.len + cm.right.len⟩)

/-- `ShardExt::split_inplace_at` for `VecShard`: `assert!(at <= self.len)`
(the panic is modelled as `none`); the right shard gets a cloned handle and
a data pointer advanced by `i`, the left shard is the input cut down to
`len = i`. No slot is touched. -/
def split_inplace_at (s : VecShard) (i : Nat) :
    Option (VecShard × VecShard) :=
  if i ≤ s.len then
    some (⟨s.allocId, s.data, i⟩, ⟨s.allocId, s.data + i, s.len - i⟩)
  else
    none

/-- `impl From<Vec<T>> for VecShard<T>`: take over the Vec's storage as a
fresh backing allocation and wrap it as a full-length shard, copying
nothing. -/
def fromVec (h : Heap α) (v : List α) : Heap α × VecShard :=
  let p := h.alloc v
  (p.1, ⟨p.2, 0, v.length⟩)

/-- `ShardExt::split_inplace_at` for `Vec<T>`: wrap the Vec, then split the
resulting shard. -/
def vec_split_inplace_at (h : Heap α) (v : List α) (i : Nat) :
    Heap α × Option (VecShard × VecShard) :=
  let p := fromVec h v
  (p.1, split_inplace_at p.2 i)

/-- The outcome of the `Into<Vec<T>>` conversion: the final heap, the
element sequence of the produced Vec, and `some id` when the Vec reuses
backing allocation `id` starting at its base address, `none` when a fresh
allocation was made for it. -/
structure IntoVecOut (α : Type) where
  heap : Heap α
  vec : List α
  reusedAlloc : Option Nat
deriving DecidableEq

/-- `impl Into<Vec<T>> for VecShard<T>`: when the shard is the sole owner of
its allocation (`Arc::try_unwrap` succeeds, i.e. `strongCount = 1`) the
allocation is reused: if `data` is not already at the base the shard's
slots are first moved down to the base with `ptr::copy`, and the allocation
is reinterpreted as a Vec of the shard's length. Otherwise a fresh Vec is
allocated and the range copied out, touching no existing allocation. -/
def intoVec (strongCount : Nat) (h : Heap α) (s : VecShard) : IntoVecOut α :=
  if strongCount = 1 then
    let mem := h.memOf s.allocId
    let mem2 := if s.data ≠ 0 then ptrCopy mem s.data 0 s.len else mem
    ⟨h.write s.allocId mem2, readRange mem2 0 s.len, some s.allocId⟩
  else
    ⟨h, readRange (h.memOf s.allocId) s.data s.len, none⟩

/-- `Iterator::next` for `VecShard`: when `len > 0`, read the slot at `data`,
then advance `data` by one and shrink `len` by one; otherwise `None`. -/
def next [Inhabited α] (h : Heap α) (s : VecShard) : Option α × VecShard :=
  if 0 < s.len then
    (some ((h.memOf s.allocId).getD s.data default),
     ⟨s.allocId, s.data + 1, s.len - 1⟩)
  else
    (none, s)

/-- `DoubleEndedIterator::next_back` for `VecShard`: when `len > 0`, shrink
`len` by one and read the slot at `data + len`; otherwise `None`. -/
def next_back [Inhabited α] (h : Heap α) (s : VecShard) :
    Option α × VecShard :=
  if 0 < s.len then
    (some ((h.memOf s.allocId).getD (s.data + (s.len - 1)) default),
     ⟨s.allocId, s.data, s.len - 1⟩)
  else
    (none, s)

/-- `Iterator::size_hint` for `VecShard`. -/
def size_hint (s : VecShard) : Nat × Option Nat :=
  (s.len, some s.len)

/-- `ExactSizeIterator::len` for `VecShard`. -/
def iterLen (s : VecShard) : Nat :=
  s.len

/-- The loop of `impl Drop for VecShard<T>`, over a memory of `Option` slots
where `none` marks a slot whose element has been destroyed: starting at
offset `i`, run `ptr::drop_in_place` on `n` consecutive slots in ascending
index order. Returns the final memory together with the trace of slot
contents destroyed, in loop order. -/
def dropRun : List (Option α) → Nat → Nat → List (Option α) × List (Option α)
  | mem, _, 0 => (mem, [])
  | mem, i, n + 1 =>
    let v := mem.getD i none
    let p := dropRun (mem.set i none) (i + 1) n
    (p.1, v :: p.2)

/-- The outcome of dropping a shard: the final memory of its allocation, the
trace of destroyed slot contents in destruction order, and whether the
backing allocation itself was freed. -/
structure DropOut (α : Type) where
  mem : List (Option α)
  destroyed : List (Option α)
  freed : Bool
deriving DecidableEq

/-- `impl Drop for VecShard<T>` followed by the implicit release of the
shard's `Arc` handle: destroy every slot in `[data, data + len)` in index
order, then release the handle; the allocation is freed (`VecDropper::drop`
runs) exactly when the released handle was the last one. `strongCount` is
the number of live handles just before this drop. -/
def dropVecShard (strongCount : Nat) (mem : List (Option α)) (s : VecShard) :
    DropOut α :=
  let p := dropRun mem s.data s.len
  ⟨p.1, p.2, strongCount - 1 == 0⟩

/-! ### Slot-level lemmas about the range primitives -/

theorem getElem?_readRange (mem : List α) (off n i : Nat) :
    (readRange mem off n)[i]? = if i < n then mem[off + i]? else none := by
  simp [readRange, List.getElem?_take, List.getElem?_drop]

theorem length_readRange (mem : List α) (off n : Nat)
    (hb : off + n ≤ mem.length) : (readRange mem off n).length = n := by
  simp only [readRange, List.length_take, List.length_drop]
  omega

theorem getElem?_writeRange (mem : List α) (off : Nat) (xs : List α) (i : Nat)
    (hb : off + xs.length ≤ mem.length) :
    (writeRange mem off xs)[i]? =
      if off ≤ i ∧ i < off + xs.length then xs[i - off]? else mem[i]? := by
  have hoff : (mem.take off).length = off := by
    simp only [List.length_take]
    omega
  unfold writeRange
  rw [List.append_assoc]
  by_cases h1 : i < off
  · rw [List.getElem?_append_left (by rw [hoff]; omega),
      List.getElem?_take_of_lt h1, if_neg (by omega)]
  · rw [List.getElem?_append_right (by rw [hoff]; omega), hoff]
    by_cases h2 : i < off + xs.length
    · rw [List.getElem?_append_left (by omega), if_pos ⟨by omega, h2⟩]
    · rw [List.getElem?_append_right (by omega), if_neg (by omega),
        List.getElem?_drop]
      congr 1
      omega

theorem length_writeRange (mem : List α) (off : Nat) (xs : List α)
    (hb : off + xs.length ≤ mem.length) :
    (writeRange mem off xs).length = mem.length := by
  simp only [writeRange, List.length_append, List.length_take,
    List.length_drop]
  omega

theorem readRange_writeRange_self (mem : List α) (off : Nat) (xs : List α)
    (hb : off + xs.length ≤ mem.length) :
    readRange (writeRange mem off xs) off xs.length = xs := by
  apply List.ext_getElem?
  intro i
  rw [getElem?_readRange]
  by_cases h : i < xs.length
  · rw [if_pos h, getElem?_writeRange mem off xs _ hb, if_pos (by omega)]
    congr 1
    omega
  · rw [if_neg h, Eq.comm]
    exact List.getElem?_eq_none (by omega)

theorem readRange_writeRange_of_disjoint (mem : List α) (off : Nat)
    (xs : List α) (a n : Nat) (hb : off + xs.length ≤ mem.length)
    (hd : a + n ≤ off ∨ off + xs.length ≤ a) :
    readRange (writeRange mem off xs) a n = readRange mem a n := by
  apply List.ext_getElem?
  intro i
  rw [getElem?_readRange, getElem?_readRange]
  by_cases h : i < n
  · rw [if_pos h, if_pos h, getElem?_writeRange mem off xs _ hb,
      if_neg (by omega)]
  · rw [if_neg h, if_neg h]

theorem readRange_split (mem : List α) (off m n : Nat) :
    readRange mem off (m + n) =
      readRange mem off m ++ readRange mem (off + m) n := by
  unfold readRange
  rw [List.take_add]
  congr 1
  rw [List.drop_drop]

theorem readRange_full (mem : List α) : readRange mem 0 mem.length = mem := by
  simp [readRange]

/-! ### Rotation lemmas -/

theorem length_rotateLeft (l : List α) (k : Nat) :
    (l.rotateLeft k).length = l.length := by
  simp only [List.rotateLeft]
  by_cases h : l.length ≤ 1
  · rw [if_pos h]
  · rw [if_neg h]
    simp only [List.length_append, List.length_drop, List.length_take]
    omega

theorem rotateLeft_append (a b : List α) :
    (a ++ b).rotateLeft a.length = b ++ a := by
  simp only [List.rotateLeft]
  by_cases h1 : (a ++ b).length ≤ 1
  · rw [if_pos h1]
    rcases a with _ | ⟨x, a⟩
    · simp
    · rcases b with _ | ⟨y, b⟩
      · simp
      · simp at h1
  · rw [if_neg h1]
    rcases b with _ | ⟨y, b⟩
    · have h2 : (a ++ ([] : List α)).length = a.length := by simp
      rw [h2, Nat.mod_self]
      simp
    · have h3 : a.length % (a ++ y :: b).length = a.length := by
        apply Nat.mod_eq_of_lt
        simp
      rw [h3, List.take_left, List.drop_left]

theorem readRange_rotateRange_self (mem : List α) (off n k : Nat)
    (hb : off + n ≤ mem.length) :
    readRange (rotateRange mem off n k) off n =
      (readRange mem off n).rotateLeft k := by
  have h1 : (readRange mem off n).length = n := length_readRange mem off n hb
  have h2 : ((readRange mem off n).rotateLeft k).length = n := by
    rw [length_rotateLeft, h1]
  have h3 := readRange_writeRange_self mem off
    ((readRange mem off n).rotateLeft k) (by rw [h2]; exact hb)
  rw [h2] at h3
  exact h3

/-! ### Heap lemmas -/

theorem memOf_write_self (h : Heap α) (id : Nat) (m : List α)
    (hid : id < h.mems.length) : (h.write id m).memOf id = m := by
  show (((h.mems.set id m))[id]?).getD [] = m
  rw [List.getElem?_set_eq_of_lt m hid]
  rfl

theorem mems_length_write (h : Heap α) (id : Nat) (m : List α) :
    (h.write id m).mems.length = h.mems.length := by
  simp [Heap.write]

theorem memOf_alloc_self (h : Heap α) (m : List α) :
    (h.alloc m).1.memOf (h.alloc m).2 = m := by
  show ((h.mems ++ [m])[h.mems.length]?).getD [] = m
  rw [List.getElem?_concat_length]
  rfl

/-! ### Case equations for the merge tiers -/

theorem merge_inplace_eq_ok (l r : VecShard) (hsame : l.allocId = r.allocId)
    (hadj : l.data + l.len = r.data) :
    merge_inplace l r = .ok ⟨l.allocId, l.data, l.len + r.len⟩ := by
  simp [merge_inplace, hsame, hadj]

theorem merge_inplace_eq_diff (l r : VecShard)
    (hne : l.allocId ≠ r.allocId) :
    merge_inplace l r = .error ⟨l, r, .DifferentAllocations⟩ := by
  simp [merge_inplace, hne]

theorem merge_inplace_eq_wrong (l r : VecShard)
    (hsame : l.allocId = r.allocId) (hna1 : l.data + l.len ≠ r.data)
    (hadj2 : r.data + r.len = l.data) :
    merge_inplace l r = .error ⟨l, r, .WrongOrder⟩ := by
  simp [merge_inplace, hsame, hna1, hadj2]

theorem merge_inplace_eq_notadj (l r : VecShard)
    (hsame : l.allocId = r.allocId) (hna1 : l.data + l.len ≠ r.data)
    (hna2 : r.data + r.len ≠ l.data) :
    merge_inplace l r = .error ⟨l, r, .NotAdjacent⟩ := by
  simp [merge_inplace, hsame, hna1, hna2]

theorem merge_noalloc_eq_tier1 (c : Nat) (h : Heap α) (l r : VecShard)
    (hsame : l.allocId = r.allocId) (hadj : l.data + l.len = r.data) :
    merge_noalloc c h l r = (h, .ok ⟨l.allocId, l.data, l.len + r.len⟩) := by
  unfold merge_noalloc
  rw [merge_inplace_eq_ok l r hsame hadj]

theorem merge_noalloc_eq_diff (c : Nat) (h : Heap α) (l r : VecShard)
    (hne : l.allocId ≠ r.allocId) :
    merge_noalloc c h l r =
      (h, .error ⟨l, r, .DifferentAllocations⟩) := by
  unfold merge_noalloc
  rw [merge_inplace_eq_diff l r hne]
  simp

theorem merge_noalloc_eq_wrong (c : Nat) (h : Heap α) (l r : VecShard)
    (hsame : l.allocId = r.allocId) (hna1 : l.data + l.len ≠ r.data)
    (hadj2 : r.data + r.len = l.data) :
    merge_noalloc c h l r =
      (h.write l.allocId
        (rotateRange (h.memOf l.allocId) r.data (l.len + r.len) r.len),
       .ok ⟨l.allocId, r.data, l.len + r.len⟩) := by
  unfold merge_noalloc
  rw [merge_inplace_eq_wrong l r hsame hna1 hadj2]
  simp

theorem merge_noalloc_eq_blocked (c : Nat) (h : Heap α) (l r : VecShard)
    (hsame : l.allocId = r.allocId) (hna1 : l.data + l.len ≠ r.data)
    (hna2 : r.data + r.len ≠ l.data) (hc : c ≠ 2) :
    merge_noalloc c h l r = (h, .error ⟨l, r, .OtherShardsLeft⟩) := by
  unfold merge_noalloc
  rw [merge_inplace_eq_notadj l r hsame hna1 hna2]
  simp [hc]

theorem merge_noalloc_eq_shuffle_low_small (h : Heap α) (l r : VecShard)
    (hsame : l.allocId = r.allocId) (hna1 : l.data + l.len ≠ r.data)
    (hna2 : r.data + r.len ≠ l.data) (hlt : r.data < l.data)
    (hsm : l.len < r.len) :
    merge_noalloc 2 h l r =
      (h.write l.allocId
        (rotateRange
          (ptrCopy (h.memOf l.allocId) l.data (r.data + r.len) l.len)
          r.data (r.len + l.len) r.len),
       .ok ⟨l.allocId, r.data, l.len + r.len⟩) := by
  unfold merge_noalloc
  rw [merge_inplace_eq_notadj l r hsame hna1 hna2]
  simp [hlt, hsm]

theorem merge_noalloc_eq_shuffle_low_big (h : Heap α) (l r : VecShard)
    (hsame : l.allocId = r.allocId) (hna1 : l.data + l.len ≠ r.data)
    (hna2 : r.data + r.len ≠ l.data) (hlt : r.data < l.data)
    (hsm : ¬l.len < r.len) :
    merge_noalloc 2 h l r =
      (h.write l.allocId
        (rotateRange
          (ptrCopy (h.memOf l.allocId) r.data (l.data - r.len) r.len)
          (l.data - r.len) (r.len + l.len) r.len),
       .ok ⟨l.allocId, l.data - r.len, l.len + r.len⟩) := by
  unfold merge_noalloc
  rw [merge_inplace_eq_notadj l r hsame hna1 hna2]
  simp [hlt, hsm]

theorem merge_noalloc_eq_shuffle_high (h : Heap α) (l r : VecShard)
    (hsame : l.allocId = r.allocId) (hna1 : l.data + l.len ≠ r.data)
    (hna2 : r.data + r.len ≠ l.data) (hlt : ¬r.data < l.data) :
    merge_noalloc 2 h l r =
      (h.write l.allocId
        (ptrCopy (h.memOf l.allocId) r.data (l.data + l.len) r.len),
       .ok ⟨l.allocId, l.data, l.len + r.len⟩) := by
  unfold merge_noalloc
  rw [merge_inplace_eq_notadj l r hsame hna1 hna2]
  simp [hlt]

/-! ### Element-sequence correctness of each successful merge shape -/

theorem rotateLeft_append_of_length (a b : List α) (k : Nat)
    (hk : a.length = k) : (a ++ b).rotateLeft k = b ++ a := by
  rw [← hk, rotateLeft_append]

theorem elems_tier1 (h : Heap α) (l r : VecShard)
    (hsame : l.allocId = r.allocId) (hadj : l.data + l.len = r.data) :
    VecShard.elems ⟨l.allocId, l.data, l.len + r.len⟩ h =
      l.elems h ++ r.elems h := by
  show readRange (h.memOf l.allocId) l.data (l.len + r.len) =
    readRange (h.memOf l.allocId) l.data l.len ++
      readRange (h.memOf r.allocId) r.data r.len
  rw [readRange_split, hadj, hsame]

theorem elems_wrong (h : Heap α) (l r : VecShard)
    (hsame : l.allocId = r.allocId) (hadj2 : r.data + r.len = l.data)
    (hvl : l.Valid h) (hvr : r.Valid h) :
    VecShard.elems ⟨l.allocId, r.data, l.len + r.len⟩
      (h.write l.allocId
        (rotateRange (h.memOf l.allocId) r.data (l.len + r.len) r.len)) =
      l.elems h ++ r.elems h := by
  obtain ⟨hid, hbl⟩ := hvl
  obtain ⟨-, hbr⟩ := hvr
  rw [← hsame] at hbr
  show readRange
      ((h.write l.allocId
        (rotateRange (h.memOf l.allocId) r.data (l.len + r.len) r.len)).memOf
          l.allocId) r.data (l.len + r.len) =
    readRange (h.memOf l.allocId) l.data l.len ++
      readRange (h.memOf r.allocId) r.data r.len
  rw [memOf_write_self _ _ _ hid]
  rw [readRange_rotateRange_self (h.memOf l.allocId) r.data (l.len + r.len)
    r.len (by omega)]
  rw [Nat.add_comm l.len r.len, readRange_split, hadj2]
  rw [rotateLeft_append_of_length _ _ _
    (length_readRange (h.memOf l.allocId) r.data r.len (by omega))]
  rw [hsame]

theorem elems_shuffle_low_small (h : Heap α) (l r : VecShard)
    (hsame : l.allocId = r.allocId) (hvl : l.Valid h) (hvr : r.Valid h)
    (hgap : r.data + r.len < l.data) :
    VecShard.elems ⟨l.allocId, r.data, l.len + r.len⟩
      (h.write l.allocId
        (rotateRange
          (ptrCopy (h.memOf l.allocId) l.data (r.data + r.len) l.len)
          r.data (r.len + l.len) r.len)) =
      l.elems h ++ r.elems h := by
  obtain ⟨hid, hbl⟩ := hvl
  obtain ⟨-, hbr⟩ := hvr
  rw [← hsame] at hbr
  have hlenl : (readRange (h.memOf l.allocId) l.data l.len).length = l.len :=
    length_readRange _ _ _ hbl
  have hw : (r.data + r.len) +
      (readRange (h.memOf l.allocId) l.data l.len).length ≤
      (h.memOf l.allocId).length := by
    rw [hlenl]; omega
  have hm1len :
      (ptrCopy (h.memOf l.allocId) l.data (r.data + r.len) l.len).length =
      (h.memOf l.allocId).length := length_writeRange _ _ _ hw
  show readRange
      ((h.write l.allocId
        (rotateRange
          (ptrCopy (h.memOf l.allocId) l.data (r.data + r.len) l.len)
          r.data (r.len + l.len) r.len)).memOf l.allocId)
      r.data (l.len + r.len) =
    readRange (h.memOf l.allocId) l.data l.len ++
      readRange (h.memOf r.allocId) r.data r.len
  rw [memOf_write_self _ _ _ hid, Nat.add_comm l.len r.len]
  rw [readRange_rotateRange_self _ r.data (r.len + l.len) r.len
    (by rw [hm1len]; omega)]
  rw [readRange_split _ r.data r.len l.len]
  have h1 : readRange
      (ptrCopy (h.memOf l.allocId) l.data (r.data + r.len) l.len)
      r.data r.len = readRange (h.memOf l.allocId) r.data r.len :=
    readRange_writeRange_of_disjoint _ (r.data + r.len) _ r.data r.len hw
      (Or.inl (by omega))
  have h2 : readRange
      (ptrCopy (h.memOf l.allocId) l.data (r.data + r.len) l.len)
      (r.data + r.len) l.len =
      readRange (h.memOf l.allocId) l.data l.len := by
    have h3 := readRange_writeRange_self (h.memOf l.allocId) (r.data + r.len)
      (readRange (h.memOf l.allocId) l.data l.len) hw
    rw [hlenl] at h3
    exact h3
  rw [h1, h2]
  rw [rotateLeft_append_of_length _ _ _
    (length_readRange (h.memOf l.allocId) r.data r.len (by omega))]
  rw [hsame]

theorem elems_shuffle_low_big (h : Heap α) (l r : VecShard)
    (hsame : l.allocId = r.allocId) (hvl : l.Valid h) (hvr : r.Valid h)
    (hgap : r.data + r.len < l.data) :
    VecShard.elems ⟨l.allocId, l.data - r.len, l.len + r.len⟩
      (h.write l.allocId
        (rotateRange
          (ptrCopy (h.memOf l.allocId) r.data (l.data - r.len) r.len)
          (l.data - r.len) (r.len + l.len) r.len)) =
      l.elems h ++ r.elems h := by
  obtain ⟨hid, hbl⟩ := hvl
  obtain ⟨-, hbr⟩ := hvr
  rw [← hsame] at hbr
  have hlenr : (readRange (h.memOf l.allocId) r.data r.len).length = r.len :=
    length_readRange _ _ _ (by omega)
  have hd : (l.data - r.len) + r.len = l.data := by omega
  have hw : (l.data - r.len) +
      (readRange (h.memOf l.allocId) r.data r.len).length ≤
      (h.memOf l.allocId).length := by
    rw [hlenr]; omega
  have hm1len :
      (ptrCopy (h.memOf l.allocId) r.data (l.data - r.len) r.len).length =
      (h.memOf l.allocId).length := length_writeRange _ _ _ hw
  show readRange
      ((h.write l.allocId
        (rotateRange
          (ptrCopy (h.memOf l.allocId) r.data (l.data - r.len) r.len)
          (l.data - r.len) (r.len + l.len) r.len)).memOf l.allocId)
      (l.data - r.len) (l.len + r.len) =
    readRange (h.memOf l.allocId) l.data l.len ++
      readRange (h.memOf r.allocId) r.data r.len
  rw [memOf_write_self _ _ _ hid, Nat.add_comm l.len r.len]
  rw [readRange_rotateRange_self _ (l.data - r.len) (r.len + l.len) r.len
    (by rw [hm1len]; omega)]
  rw [readRange_split _ (l.data - r.len) r.len l.len]
  have h1 : readRange
      (ptrCopy (h.memOf l.allocId) r.data (l.data - r.len) r.len)
      (l.data - r.len) r.len =
      readRange (h.memOf l.allocId) r.data r.len := by
    have h3 := readRange_writeRange_self (h.memOf l.allocId) (l.data - r.len)
      (readRange (h.memOf l.allocId) r.data r.len) hw
    rw [hlenr] at h3
    exact h3
  have h2 : readRange
      (ptrCopy (h.memOf l.allocId) r.data (l.data - r.len) r.len)
      ((l.data - r.len) + r.len) l.len =
      readRange (h.memOf l.allocId) l.data l.len := by
    rw [hd]
    exact readRange_writeRange_of_disjoint _ (l.data - r.len) _ l.data l.len
      hw (Or.inr (by rw [hlenr]; omega))
  rw [h1, h2]
  rw [rotateLeft_append_of_length _ _ _
    (length_readRange (h.memOf l.allocId) r.data r.len (by omega))]
  rw [hsame]

theorem elems_shuffle_high (h : Heap α) (l r : VecShard)
    (hsame : l.allocId = r.allocId) (hvl : l.Valid h) (hvr : r.Valid h)
    (hgap : l.data + l.len < r.data) :
    VecShard.elems ⟨l.allocId, l.data, l.len + r.len⟩
      (h.write l.allocId
        (ptrCopy (h.memOf l.allocId) r.data (l.data + l.len) r.len)) =
      l.elems h ++ r.elems h := by
  obtain ⟨hid, hbl⟩ := hvl
  obtain ⟨-, hbr⟩ := hvr
  rw [← hsame] at hbr
  have hlenr : (readRange (h.memOf l.allocId) r.data r.len).length = r.len :=
    length_readRange _ _ _ (by omega)
  have hw : (l.data + l.len) +
      (readRange (h.memOf l.allocId) r.data r.len).length ≤
      (h.memOf l.allocId).length := by
    rw [hlenr]; omega
  show readRange
      ((h.write l.allocId
        (ptrCopy (h.memOf l.allocId) r.data (l.data + l.len) r.len)).memOf
          l.allocId) l.data (l.len + r.len) =
    readRange (h.memOf l.allocId) l.data l.len ++
      readRange (h.memOf r.allocId) r.data r.len
  rw [memOf_write_self _ _ _ hid]
  rw [readRange_split _ l.data l.len r.len]
  have h1 : readRange
      (ptrCopy (h.memOf l.allocId) r.data (l.data + l.len) r.len)
      l.data l.len = readRange (h.memOf l.allocId) l.data l.len :=
    readRange_writeRange_of_disjoint _ (l.data + l.len) _ l.data l.len hw
      (Or.inl (by omega))
  have h2 : readRange
      (ptrCopy (h.memOf l.allocId) r.data (l.data + l.len) r.len)
      (l.data + l.len) r.len =
      readRange (h.memOf l.allocId) r.data r.len := by
    have h3 := readRange_writeRange_self (h.memOf l.allocId) (l.data + l.len)
      (readRange (h.memOf l.allocId) r.data r.len) hw
    rw [hlenr] at h3
    exact h3
  rw [h1, h2, hsame]

theorem elems_fallback (h : Heap α) (l r : VecShard)
    (hvl : l.Valid h) (hvr : r.Valid h) :
    VecShard.elems
      ⟨(h.alloc (l.elems h ++ r.elems h)).2, 0, l.len + r.len⟩
      (h.alloc (l.elems h ++ r.elems h)).1 = l.elems h ++ r.elems h := by
  show readRange
      ((h.alloc (l.elems h ++ r.elems h)).1.memOf
        (h.alloc (l.elems h ++ r.elems h)).2) 0 (l.len + r.len) =
    l.elems h ++ r.elems h
  rw [memOf_alloc_self]
  have hlen : (l.elems h ++ r.elems h).length = l.len + r.len := by
    show (readRange _ _ _ ++ readRange _ _ _).length = _
    rw [List.length_append, length_readRange _ _ _ hvl.2,
      length_readRange _ _ _ hvr.2]
  rw [← hlen, readRange_full]

/-! ### Aggregated behaviour of `merge_noalloc` and `merge` -/

theorem merge_noalloc_ok_spec (c : Nat) (h : Heap α) (l r : VecShard)
    (hsame : l.allocId = r.allocId) (hvl : l.Valid h) (hvr : r.Valid h)
    (hdisj : l.Disjoint r)
    (hcond : l.data + l.len = r.data ∨ r.data + r.len = l.data ∨ c = 2) :
    ∃ h2 s, merge_noalloc c h l r = (h2, Except.ok s) ∧
      s.elems h2 = l.elems h ++ r.elems h ∧
      s.allocId = l.allocId ∧
      h2.mems.length = h.mems.length := by
  by_cases hadj : l.data + l.len = r.data
  · exact ⟨h, _, merge_noalloc_eq_tier1 c h l r hsame hadj,
      elems_tier1 h l r hsame hadj, rfl, rfl⟩
  · by_cases hadj2 : r.data + r.len = l.data
    · exact ⟨_, _, merge_noalloc_eq_wrong c h l r hsame hadj hadj2,
        elems_wrong h l r hsame hadj2 hvl hvr, rfl,
        mems_length_write h l.allocId _⟩
    · have hc : c = 2 := by tauto
      subst hc
      by_cases hlt : r.data < l.data
      · have hgap : r.data + r.len < l.data := by
          rcases hdisj with h1 | h1 <;> omega
        by_cases hsm : l.len < r.len
        · exact ⟨_, _,
            merge_noalloc_eq_shuffle_low_small h l r hsame hadj hadj2 hlt hsm,
            elems_shuffle_low_small h l r hsame hvl hvr hgap, rfl,
            mems_length_write h l.allocId _⟩
        · exact ⟨_, _,
            merge_noalloc_eq_shuffle_low_big h l r hsame hadj hadj2 hlt hsm,
            elems_shuffle_low_big h l r hsame hvl hvr hgap, rfl,
            mems_length_write h l.allocId _⟩
      · have hgap : l.data + l.len < r.data := by
          rcases hdisj with h1 | h1 <;> omega
        exact ⟨_, _,
          merge_noalloc_eq_shuffle_high h l r hsame hadj hadj2 hlt,
          elems_shuffle_high h l r hsame hvl hvr hgap, rfl,
          mems_length_write h l.allocId _⟩

theorem merge_noalloc_error_cases (c : Nat) (h : Heap α) (l r : VecShard)
    (h2 : Heap α) (e : CantMerge WouldAlloc)
    (he : merge_noalloc c h l r = (h2, Except.error e)) :
    h2 = h ∧ e.left = l ∧ e.right = r ∧
    ((e.reason = WouldAlloc.DifferentAllocations ∧ l.allocId ≠ r.allocId) ∨
     (e.reason = WouldAlloc.OtherShardsLeft ∧ l.allocId = r.allocId ∧
      l.data + l.len ≠ r.data ∧ r.data + r.len ≠ l.data ∧ c ≠ 2)) := by
  by_cases hsame : l.allocId = r.allocId
  · by_cases hadj : l.data + l.len = r.data
    · rw [merge_noalloc_eq_tier1 c h l r hsame hadj] at he
      simp at he
    · by_cases hadj2 : r.data + r.len = l.data
      · rw [merge_noalloc_eq_wrong c h l r hsame hadj hadj2] at he
        simp at he
      · by_cases hc : c = 2
        · subst hc
          by_cases hlt : r.data < l.data
          · by_cases hsm : l.len < r.len
            · rw [merge_noalloc_eq_shuffle_low_small h l r hsame hadj hadj2
                hlt hsm] at he
              simp at he
            · rw [merge_noalloc_eq_shuffle_low_big h l r hsame hadj hadj2
                hlt hsm] at he
              simp at he
          · rw [merge_noalloc_eq_shuffle_high h l r hsame hadj hadj2 hlt]
              at he
            simp at he
        · rw [merge_noalloc_eq_blocked c h l r hsame hadj hadj2 hc] at he
          simp only [Prod.mk.injEq, Except.error.injEq] at he
          obtain ⟨rfl, rfl⟩ := he
          exact ⟨rfl, rfl, rfl, Or.inr ⟨rfl, hsame, hadj, hadj2, hc⟩⟩
  · rw [merge_noalloc_eq_diff c h l r hsame] at he
    simp only [Prod.mk.injEq, Except.error.injEq] at he
    obtain ⟨rfl, rfl⟩ := he
    exact ⟨rfl, rfl, rfl, Or.inl ⟨rfl, hsame⟩⟩

theorem merge_eq_of_ok (c : Nat) (h : Heap α) (l r : VecShard)
    (h2 : Heap α) (s : VecShard)
    (he : merge_noalloc c h l r = (h2, Except.ok s)) :
    merge c h l r = (h2, s) := by
  unfold merge
  rw [he]

theorem merge_eq_of_error (c : Nat) (h : Heap α) (l r : VecShard)
    (h2 : Heap α) (e : CantMerge WouldAlloc)
    (he : merge_noalloc c h l r = (h2, Except.error e)) :
    merge c h l r =
      ((h2.alloc (e.left.elems h2 ++ e.right.elems h2)).1,
       ⟨(h2.alloc (e.left.elems h2 ++ e.right.elems h2)).2, 0,
        e.left.len + e.right.len⟩) := by
  unfold merge
  rw [he]

/-! ### The drop loop -/

theorem dropRun_spec (n : Nat) :
    ∀ (mem : List (Option α)) (i : Nat), i + n ≤ mem.length →
      (dropRun mem i n).2 = readRange mem i n ∧
      (dropRun mem i n).1 = writeRange mem i (List.replicate n none) := by
  induction n with
  | zero =>
    intro mem i hb
    refine ⟨rfl, ?_⟩
    show mem = mem.take i ++ [] ++ mem.drop (i + 0)
    rw [List.append_nil, Nat.add_zero, List.take_append_drop]
  | succ n ih =>
    intro mem i hb
    have hlen : (mem.set i (none : Option α)).length = mem.length :=
      List.length_set mem i none
    obtain ⟨ih2, ih1⟩ := ih (mem.set i none) (i + 1) (by rw [hlen]; omega)
    have hr : readRange (mem.set i (none : Option α)) (i + 1) n =
        readRange mem (i + 1) n := by
      apply List.ext_getElem?
      intro j
      rw [getElem?_readRange, getElem?_readRange]
      by_cases hj : j < n
      · rw [if_pos hj, if_pos hj, List.getElem?_set_ne (by omega)]
      · rw [if_neg hj, if_neg hj]
    constructor
    · show mem.getD i none :: (dropRun (mem.set i none) (i + 1) n).2 =
        readRange mem i (n + 1)
      rw [ih2, hr]
      apply List.ext_getElem?
      intro j
      rcases j with _ | j
      · rw [List.getElem?_cons_zero, getElem?_readRange, if_pos (by omega),
          Nat.add_zero, List.getD_eq_getElem?_getD,
          List.getElem?_eq_getElem (by omega)]
        rfl
      · rw [List.getElem?_cons_succ, getElem?_readRange, getElem?_readRange]
        by_cases hj : j < n
        · rw [if_pos hj, if_pos (by omega)]
          congr 1
          omega
        · rw [if_neg hj, if_neg (by omega)]
    · show (dropRun (mem.set i none) (i + 1) n).1 =
        writeRange mem i (List.replicate (n + 1) none)
      rw [ih1]
      apply List.ext_getElem?
      intro j
      rw [getElem?_writeRange _ _ _ _
          (by rw [List.length_replicate, hlen]; omega),
        getElem?_writeRange _ _ _ _ (by rw [List.length_replicate]; omega)]
      by_cases hj1 : i + 1 ≤ j ∧
          j < i + 1 + (List.replicate n (none : Option α)).length
      · rw [if_pos hj1, if_pos (by simp at hj1 ⊢; omega)]
        rw [List.getElem?_replicate, List.getElem?_replicate]
        simp only [List.length_replicate] at hj1
        rw [if_pos (by omega), if_pos (by omega)]
      · rw [if_neg hj1]
        simp only [List.length_replicate] at hj1
        by_cases hj2 : i ≤ j ∧
            j < i + (List.replicate (n + 1) (none : Option α)).length
        · simp only [List.length_replicate] at hj2
          have hji : j = i := by omega
          subst hji
          rw [if_pos (by simp)]
          rw [List.getElem?_set_eq_of_lt none (by omega),
            List.getElem?_replicate, if_pos (by omega)]
        · simp only [List.length_replicate] at hj2
          rw [if_neg (by simp; omega), List.getElem?_set_ne (by omega)]

theorem elems_getElem? (s : VecShard) (h : Heap α) (i : Nat) :
    (s.elems h)[i]? =
      if i < s.len then (h.memOf s.allocId)[s.data + i]? else none :=
  getElem?_readRange _ _ _ _

/-! ### The claims -/

/-- Claim C1: wrapping an owned sequence `S` as a shard, splitting it at any
valid split point `k` with `split_inplace_at`, and recombining the two parts
with the top-level `merge` yields a shard whose element sequence equals `S`
in the original order, whatever the sampled strong count is. -/
theorem claim_C1 (h : Heap α) (S : List α) (k c : Nat) (l r : VecShard)
    (hsplit : (vec_split_inplace_at h S k).2 = some (l, r)) :
    ((merge c (vec_split_inplace_at h S k).1 l r).2).elems
      (merge c (vec_split_inplace_at h S k).1 l r).1 = S := by
  by_cases hk : k ≤ S.length
  · simp only [vec_split_inplace_at, fromVec, split_inplace_at, if_pos hk,
      Option.some.injEq, Prod.mk.injEq] at hsplit
    obtain ⟨rfl, rfl⟩ := hsplit
    show ((merge c (h.alloc S).1 _ _).2).elems (merge c (h.alloc S).1 _ _).1 = S
    rw [merge_eq_of_ok c (h.alloc S).1 _ _ (h.alloc S).1
      ⟨(h.alloc S).2, 0, k + (S.length - k)⟩
      (merge_noalloc_eq_tier1 c (h.alloc S).1
        ⟨(h.alloc S).2, 0, k⟩ ⟨(h.alloc S).2, 0 + k, S.length - k⟩ rfl rfl)]
    show readRange ((h.alloc S).1.memOf (h.alloc S).2) 0 (k + (S.length - k)) = S
    rw [memOf_alloc_self]
    have hkk : k + (S.length - k) = S.length := by omega
    rw [hkk, readRange_full]
  · simp [vec_split_inplace_at, fromVec, split_inplace_at, hk] at hsplit

/-- Claim C2: the top-level `merge` is total. For every pair of valid,
non-overlapping shards — same allocation or not, adjacent or not, and for
every sampled strong count — it returns a single shard whose element
sequence is left's elements followed by right's elements. -/
theorem claim_C2 (c : Nat) (h : Heap α) (l r : VecShard)
    (hvl : l.Valid h) (hvr : r.Valid h)
    (hdisj : l.allocId = r.allocId → l.Disjoint r) :
    ((merge c h l r).2).elems (merge c h l r).1 =
      l.elems h ++ r.elems h := by
  by_cases hsame : l.allocId = r.allocId
  · by_cases hcond : l.data + l.len = r.data ∨ r.data + r.len = l.data ∨ c = 2
    · obtain ⟨h2, s, he, helems, -, -⟩ :=
        merge_noalloc_ok_spec c h l r hsame hvl hvr (hdisj hsame) hcond
      rw [merge_eq_of_ok c h l r h2 s he]
      exact helems
    · push_neg at hcond
      obtain ⟨hna1, hna2, hc⟩ := hcond
      rw [merge_eq_of_error c h l r h ⟨l, r, .OtherShardsLeft⟩
        (merge_noalloc_eq_blocked c h l r hsame hna1 hna2 hc)]
      exact elems_fallback h l r hvl hvr
  · rw [merge_eq_of_error c h l r h ⟨l, r, .DifferentAllocations⟩
      (merge_noalloc_eq_diff c h l r hsame)]
    exact elems_fallback h l r hvl hvr

/-- Claim C3: `merge_inplace` succeeds exactly when both handles refer to the
same allocation and `right.data = left.data + left.len`; on success the
result reuses left's handle and start with the combined length. On failure
the error returns both shards and the reason is exactly one of three
mutually exclusive cases in the source's precedence: `DifferentAllocations`
when the handles differ, `WrongOrder` when the allocation is shared and
`left.data = right.data + right.len`, and `NotAdjacent` otherwise. -/
theorem claim_C3 (l r : VecShard) :
    ((∃ s, merge_inplace l r = Except.ok s) ↔
      (l.allocId = r.allocId ∧ r.data = l.data + l.len)) ∧
    (∀ s, merge_inplace l r = Except.ok s →
      s = ⟨l.allocId, l.data, l.len + r.len⟩) ∧
    (∀ e, merge_inplace l r = Except.error e →
      e.left = l ∧ e.right = r ∧
      (e.reason = WouldMove.DifferentAllocations ↔ l.allocId ≠ r.allocId) ∧
      (e.reason = WouldMove.WrongOrder ↔
        (l.allocId = r.allocId ∧ l.data = r.data + r.len)) ∧
      (e.reason = WouldMove.NotAdjacent ↔
        (l.allocId = r.allocId ∧ l.data ≠ r.data + r.len ∧
         r.data ≠ l.data + l.len))) := by
  by_cases hsame : l.allocId = r.allocId
  · by_cases hadj : l.data + l.len = r.data
    · have he := merge_inplace_eq_ok l r hsame hadj
      refine ⟨⟨fun _ => ⟨hsame, hadj.symm⟩, fun _ => ⟨_, he⟩⟩, ?_, ?_⟩
      · intro s hs
        rw [he] at hs
        simp only [Except.ok.injEq] at hs
        exact hs.symm
      · intro e hee
        rw [he] at hee
        simp at hee
    · by_cases hadj2 : r.data + r.len = l.data
      · have he := merge_inplace_eq_wrong l r hsame hadj hadj2
        refine ⟨⟨fun ⟨s, hs⟩ => ?_, fun hx => absurd hx.2.symm hadj⟩,
          fun s hs => ?_, fun e hee => ?_⟩
        · rw [he] at hs
          simp at hs
        · rw [he] at hs
          simp at hs
        · rw [he] at hee
          simp only [Except.error.injEq] at hee
          subst hee
          refine ⟨rfl, rfl, ?_, ?_, ?_⟩ <;> simp [hsame] <;> omega
      · have he := merge_inplace_eq_notadj l r hsame hadj hadj2
        refine ⟨⟨fun ⟨s, hs⟩ => ?_, fun hx => absurd hx.2.symm hadj⟩,
          fun s hs => ?_, fun e hee => ?_⟩
        · rw [he] at hs
          simp at hs
        · rw [he] at hs
          simp at hs
        · rw [he] at hee
          simp only [Except.error.injEq] at hee
          subst hee
          refine ⟨rfl, rfl, ?_, ?_, ?_⟩ <;> simp [hsame] <;> omega
  · have he := merge_inplace_eq_diff l r hsame
    refine ⟨⟨fun ⟨s, hs⟩ => ?_, fun hx => absurd hx.1 hsame⟩,
      fun s hs => ?_, fun e hee => ?_⟩
    · rw [he] at hs
      simp at hs
    · rw [he] at hs
      simp at hs
    · rw [he] at hee
      simp only [Except.error.injEq] at hee
      subst hee
      refine ⟨rfl, rfl, by simp [hsame], by simp [hsame], by simp [hsame]⟩

/-- Claim C4: allocation reuse. When two valid, disjoint shards are the only
two live co-owners of one backing allocation (strong count 2),
`merge_noalloc` succeeds — regardless of their relative address order, their
adjacency, or which shard is passed as left; the resulting shard's elements
are left's followed by right's, and no new allocation is made (the heap
keeps exactly the same allocations). -/
theorem claim_C4 (h : Heap α) (l r : VecShard)
    (hsame : l.allocId = r.allocId) (hvl : l.Valid h) (hvr : r.Valid h)
    (hdisj : l.Disjoint r) :
    ∃ h2 s, merge_noalloc 2 h l r = (h2, Except.ok s) ∧
      s.elems h2 = l.elems h ++ r.elems h ∧
      h2.mems.length = h.mems.length := by
  obtain ⟨h2, s, he, helems, -, hlen⟩ :=
    merge_noalloc_ok_spec 2 h l r hsame hvl hvr hdisj (Or.inr (Or.inr rfl))
  exact ⟨h2, s, he, helems, hlen⟩

/-- Claim C5: `merge_noalloc` failure taxonomy and atomicity. It fails with
`DifferentAllocations` exactly when the two handles refer to different
allocations, and with `OtherShardsLeft` exactly when they share an
allocation, are adjacent in neither address order, and more than two handles
are live (the sampled count, at least 2 because the two arguments hold
handles, exceeds 2); every failure returns the heap and both shards
unchanged, so starts, lengths and element contents are all preserved. -/
theorem claim_C5 (c : Nat) (h : Heap α) (l r : VecShard) (hc : 2 ≤ c) :
    ((∃ e, (merge_noalloc c h l r).2 = Except.error e ∧
        e.reason = WouldAlloc.DifferentAllocations) ↔
      l.allocId ≠ r.allocId) ∧
    ((∃ e, (merge_noalloc c h l r).2 = Except.error e ∧
        e.reason = WouldAlloc.OtherShardsLeft) ↔
      (l.allocId = r.allocId ∧ l.data + l.len ≠ r.data ∧
       r.data + r.len ≠ l.data ∧ 2 < c)) ∧
    (∀ h2 e, merge_noalloc c h l r = (h2, Except.error e) →
      h2 = h ∧ e.left = l ∧ e.right = r ∧
      e.left.elems h2 = l.elems h ∧ e.right.elems h2 = r.elems h) := by
  refine ⟨⟨?_, ?_⟩, ⟨?_, ?_⟩, ?_⟩
  · rintro ⟨e, he2, hr⟩
    rcases hmn : merge_noalloc c h l r with ⟨h2, res⟩
    rw [hmn] at he2
    simp only at he2
    subst he2
    rcases (merge_noalloc_error_cases c h l r h2 e hmn).2.2.2 with
      ⟨-, hne⟩ | ⟨hr2, -⟩
    · exact hne
    · rw [hr] at hr2
      cases hr2
  · intro hne
    exact ⟨⟨l, r, .DifferentAllocations⟩,
      by rw [merge_noalloc_eq_diff c h l r hne], rfl⟩
  · rintro ⟨e, he2, hr⟩
    rcases hmn : merge_noalloc c h l r with ⟨h2, res⟩
    rw [hmn] at he2
    simp only at he2
    subst he2
    rcases (merge_noalloc_error_cases c h l r h2 e hmn).2.2.2 with
      ⟨hr2, -⟩ | ⟨-, hsame, hna1, hna2, hcne⟩
    · rw [hr] at hr2
      cases hr2
    · exact ⟨hsame, hna1, hna2, by omega⟩
  · rintro ⟨hsame, hna1, hna2, hclt⟩
    exact ⟨⟨l, r, .OtherShardsLeft⟩,
      by rw [merge_noalloc_eq_blocked c h l r hsame hna1 hna2 (by omega)],
      rfl⟩
  · intro h2 e he
    obtain ⟨rfl, hel, her, -⟩ := merge_noalloc_error_cases c h l r h2 e he
    exact ⟨rfl, hel, her, by rw [hel], by rw [her]⟩

/-- Claim C6: `split_inplace_at s k` with `k ≤ s.len` returns `(l, r)` where
`l` keeps the shard's handle and original start with length `k`, and `r`
holds a cloned handle to the same allocation, a start advanced by `k`, and
length `s.len - k`; in every heap the two halves' element sequences
concatenate to the original's, so no element is moved and no allocation is
made. For `k > s.len` the call terminates fatally (`assert!` panic,
modelled as `none`). -/
theorem claim_C6 (α : Type) (s : VecShard) (k : Nat) :
    (∀ l r, split_inplace_at s k = some (l, r) →
      l = ⟨s.allocId, s.data, k⟩ ∧
      r = ⟨s.allocId, s.data + k, s.len - k⟩ ∧
      ∀ h : Heap α, l.elems h ++ r.elems h = s.elems h) ∧
    (split_inplace_at s k = none ↔ s.len < k) := by
  constructor
  · intro l r hsplit
    by_cases hk : k ≤ s.len
    · simp only [split_inplace_at, if_pos hk, Option.some.injEq,
        Prod.mk.injEq] at hsplit
      obtain ⟨rfl, rfl⟩ := hsplit
      refine ⟨rfl, rfl, fun h => ?_⟩
      show readRange (h.memOf s.allocId) s.data k ++
          readRange (h.memOf s.allocId) (s.data + k) (s.len - k) =
        readRange (h.memOf s.allocId) s.data s.len
      rw [← readRange_split]
      congr 1
      omega
    · simp [split_inplace_at, hk] at hsplit
  · constructor
    · intro hnone
      by_contra hk
      unfold split_inplace_at at hnone
      rw [if_pos (by omega)] at hnone
      cases hnone
    · intro hk
      unfold split_inplace_at
      rw [if_neg (by omega)]

/-- Claim C7: converting a shard into a Vec always yields exactly the shard's
element sequence in order. When the shard's handle is the sole remaining
co-owner (strong count 1, so `Arc::try_unwrap` succeeds) the original
allocation is reused — the Vec starts at the allocation base, the slots
having been moved down first if the start pointer was not already there.
When other co-owners remain, the conversion reports a fresh allocation and
leaves the heap, hence every sibling shard, untouched. -/
theorem claim_C7 (c : Nat) (h : Heap α) (s : VecShard) (hv : s.Valid h) :
    (intoVec c h s).vec = s.elems h ∧
    ((intoVec c h s).reusedAlloc = some s.allocId ↔ c = 1) ∧
    (c ≠ 1 →
      (intoVec c h s).heap = h ∧ (intoVec c h s).reusedAlloc = none) := by
  by_cases hc : c = 1
  · subst hc
    refine ⟨?_, by simp [intoVec], fun hne => absurd rfl hne⟩
    show (intoVec 1 h s).vec = s.elems h
    simp only [intoVec, if_pos rfl]
    by_cases hd : s.data ≠ 0
    · rw [if_pos hd]
      show readRange
          (writeRange (h.memOf s.allocId) 0
            (readRange (h.memOf s.allocId) s.data s.len)) 0
          s.len = s.elems h
      obtain ⟨-, hb⟩ := hv
      have hlen : (readRange (h.memOf s.allocId) s.data s.len).length =
          s.len := length_readRange _ _ _ hb
      have h3 := readRange_writeRange_self (h.memOf s.allocId) 0
        (readRange (h.memOf s.allocId) s.data s.len) (by rw [hlen]; omega)
      rw [hlen] at h3
      exact h3
    · rw [if_neg hd]
      push_neg at hd
      show readRange (h.memOf s.allocId) 0 s.len = s.elems h
      rw [← hd]
      rfl
  · refine ⟨?_, by simp [intoVec, hc], fun _ => by simp [intoVec, hc]⟩
    simp only [intoVec, if_neg hc]
    rfl

/-- Claim C8: draining iteration. Each front-draining step (`next`) returns
`some` of the current first element and shrinks the range by one from the
front; each back-draining step (`next_back`) returns `some` of the current
last element and shrinks the range by one from the back; both return `none`
exactly when the remaining length is 0; and the reported sizes (`size_hint`
and the exact-size length) equal the number of remaining elements at every
point, reaching 0 after full draining from either or both ends. -/
theorem claim_C8 [Inhabited α] (h : Heap α) (s : VecShard)
    (hv : s.Valid h) :
    (next h s).1 = (s.elems h).head? ∧
    ((next h s).2).elems h = (s.elems h).tail ∧
    ((next h s).1 = none ↔ s.len = 0) ∧
    ((next h s).2).len = s.len - 1 ∧
    (next_back h s).1 = (s.elems h).getLast? ∧
    ((next_back h s).2).elems h = (s.elems h).dropLast ∧
    ((next_back h s).1 = none ↔ s.len = 0) ∧
    ((next_back h s).2).len = s.len - 1 ∧
    size_hint s = (s.len, some s.len) ∧
    iterLen s = s.len ∧
    (s.elems h).length = s.len := by
  obtain ⟨-, hb⟩ := hv
  have hlen : (s.elems h).length = s.len := length_readRange _ _ _ hb
  refine ⟨?_, ?_, ?_, ?_, ?_, ?_, ?_, ?_, rfl, rfl, hlen⟩
  · by_cases hpos : 0 < s.len
    · have hd : s.data < (h.memOf s.allocId).length := by omega
      rw [List.head?_eq_getElem? (s.elems h), elems_getElem?, if_pos hpos,
        Nat.add_zero]
      simp only [next, if_pos hpos]
      rw [List.getD_eq_getElem?_getD, List.getElem?_eq_getElem hd]
      rfl
    · simp only [next, if_neg hpos]
      rw [List.head?_eq_getElem? (s.elems h), Eq.comm]
      exact List.getElem?_eq_none (by omega)
  · apply List.ext_getElem?
    intro j
    by_cases hpos : 0 < s.len
    · simp only [next, if_pos hpos]
      rw [elems_getElem?, ← List.drop_one, List.getElem?_drop,
        elems_getElem?]
      simp only
      by_cases hj : j < s.len - 1
      · rw [if_pos hj, if_pos (by omega)]
        congr 1
        omega
      · rw [if_neg hj, if_neg (by omega)]
    · simp only [next, if_neg hpos]
      rw [← List.drop_one, List.getElem?_drop, elems_getElem?,
        elems_getElem?, if_neg (by omega), if_neg (by omega)]
  · constructor
    · intro hnone
      by_contra hz
      simp only [next, if_pos (by omega : 0 < s.len)] at hnone
      cases hnone
    · intro hz
      simp only [next, if_neg (by omega : ¬0 < s.len)]
  · by_cases hpos : 0 < s.len
    · simp only [next, if_pos hpos]
    · simp only [next, if_neg hpos]
      omega
  · by_cases hpos : 0 < s.len
    · have hd : s.data + (s.len - 1) < (h.memOf s.allocId).length := by omega
      rw [List.getLast?_eq_getElem? (s.elems h), hlen, elems_getElem?,
        if_pos (by omega)]
      simp only [next_back, if_pos hpos]
      rw [List.getD_eq_getElem?_getD, List.getElem?_eq_getElem hd]
      rfl
    · simp only [next_back, if_neg hpos]
      rw [List.getLast?_eq_getElem? (s.elems h), hlen, elems_getElem?,
        if_neg (by omega)]
  · apply List.ext_getElem?
    intro j
    rw [List.dropLast_eq_take (s.elems h), hlen, List.getElem?_take]
    by_cases hpos : 0 < s.len
    · simp only [next_back, if_pos hpos]
      rw [elems_getElem?]
      simp only
      by_cases hj : j < s.len - 1
      · rw [if_pos hj, if_pos hj, elems_getElem?, if_pos (by omega)]
      · rw [if_neg hj, if_neg hj]
    · simp only [next_back, if_neg hpos]
      rw [elems_getElem?, if_neg (by omega), if_neg (by omega)]
  · constructor
    · intro hnone
      by_contra hz
      simp only [next_back, if_pos (by omega : 0 < s.len)] at hnone
      cases hnone
    · intro hz
      simp only [next_back, if_neg (by omega : ¬0 < s.len)]
  · by_cases hpos : 0 < s.len
    · simp only [next_back, if_pos hpos]
    · simp only [next_back, if_neg hpos]
      omega

/-- Claim C9: disjoint drop. Dropping a shard destroys exactly the slots of
its own range `[data, data + len)` — the destroyed contents are precisely
that range in ascending index order, and the final memory marks exactly that
range as destroyed — while the slots of every disjoint sibling shard read
unchanged; the backing allocation itself is freed exactly when the released
handle was the last live one. -/
theorem claim_C9 (c : Nat) (mem : List (Option α)) (s : VecShard)
    (hb : s.data + s.len ≤ mem.length) (hc : 1 ≤ c) :
    (dropVecShard c mem s).destroyed = readRange mem s.data s.len ∧
    (dropVecShard c mem s).mem =
      writeRange mem s.data (List.replicate s.len none) ∧
    (∀ t : VecShard, VecShard.Disjoint s t → t.data + t.len ≤ mem.length →
      readRange (dropVecShard c mem s).mem t.data t.len =
        readRange mem t.data t.len) ∧
    ((dropVecShard c mem s).freed = true ↔ c = 1) := by
  obtain ⟨h2, h1⟩ := dropRun_spec s.len mem s.data hb
  refine ⟨h2, h1, fun t hdisj hbt => ?_, ?_⟩
  · have hmm : (dropVecShard c mem s).mem = (dropRun mem s.data s.len).1 :=
      rfl
    rw [hmm, h1]
    refine readRange_writeRange_of_disjoint mem s.data _ t.data t.len
      (by rw [List.length_replicate]; exact hb) ?_
    rw [List.length_replicate]
    rcases hdisj with hd | hd
    · exact Or.inr hd
    · exact Or.inl hd
  · show (c - 1 == 0) = true ↔ c = 1
    rw [beq_iff_eq]
    omega

/-- Claim C10 (implicit): feeding the two halves produced by
`split_inplace_at` straight back to `merge_inplace`, in order, always
succeeds and returns exactly the original shard — original handle, start
pointer and length — so the split/merge round trip already closes at Tier 1
with no data movement (`merge_inplace` touches no memory at all). -/
theorem claim_C10 (s : VecShard) (k : Nat) (l r : VecShard)
    (hsplit : split_inplace_at s k = some (l, r)) :
    merge_inplace l r = Except.ok s := by
  by_cases hk : k ≤ s.len
  · simp only [split_inplace_at, if_pos hk, Option.some.injEq,
      Prod.mk.injEq] at hsplit
    obtain ⟨rfl, rfl⟩ := hsplit
    rw [merge_inplace_eq_ok ⟨s.allocId, s.data, k⟩
      ⟨s.allocId, s.data + k, s.len - k⟩ rfl rfl]
    have hkk : k + (s.len - k) = s.len := by omega
    show Except.ok ⟨s.allocId, s.data, k + (s.len - k)⟩ =
      Except.ok (VecShard.mk s.allocId s.data s.len)
    rw [hkk]
  · simp [split_inplace_at, hk] at hsplit

/-! ### Concrete witnesses -/

/-- Witness for claim C1 at `S = [1,2,3,4,5]`, `k = 2`, strong count 7. -/
theorem claim_C1_witness :
    ((merge 7 (vec_split_inplace_at (⟨[]⟩ : Heap Nat) [1,2,3,4,5] 2).1
        ⟨0,0,2⟩ ⟨0,2,3⟩).2).elems
      (merge 7 (vec_split_inplace_at (⟨[]⟩ : Heap Nat) [1,2,3,4,5] 2).1
        ⟨0,0,2⟩ ⟨0,2,3⟩).1 = [1,2,3,4,5] :=
  claim_C1 ⟨[]⟩ [1,2,3,4,5] 2 7 ⟨0,0,2⟩ ⟨0,2,3⟩ (by decide)

/-- Witness for claim C2: a two-owner merge whose right shard sits at the
lower address and is not adjacent, exercising the shuffle path. -/
theorem claim_C2_witness :
    ((merge 2 (⟨[[1,2,9,9,5,6]]⟩ : Heap Nat) ⟨0,4,2⟩ ⟨0,0,2⟩).2).elems
      (merge 2 (⟨[[1,2,9,9,5,6]]⟩ : Heap Nat) ⟨0,4,2⟩ ⟨0,0,2⟩).1 =
      VecShard.elems ⟨0,4,2⟩ (⟨[[1,2,9,9,5,6]]⟩ : Heap Nat) ++
        VecShard.elems ⟨0,0,2⟩ (⟨[[1,2,9,9,5,6]]⟩ : Heap Nat) :=
  claim_C2 2 ⟨[[1,2,9,9,5,6]]⟩ ⟨0,4,2⟩ ⟨0,0,2⟩ (by decide) (by decide)
    (by decide)

/-- Witness for claim C3: a successful adjacent merge and a wrong-order
failure. -/
theorem claim_C3_witness :
    (∃ s, merge_inplace (⟨0,0,2⟩ : VecShard) ⟨0,2,3⟩ = Except.ok s) ∧
    ((0 : Nat) = 0 ∧ (5 : Nat) = 3 + 2) :=
  ⟨(claim_C3 ⟨0,0,2⟩ ⟨0,2,3⟩).1.mpr (by decide),
   ((claim_C3 ⟨0,5,2⟩ ⟨0,3,2⟩).2.2
      ⟨⟨0,5,2⟩, ⟨0,3,2⟩, WouldMove.WrongOrder⟩
      rfl).2.2.2.1.mp (by decide)⟩

/-- Witness for claim C4: a non-adjacent two-owner pair with right at the
lower address. -/
theorem claim_C4_witness :
    ∃ h2 s, merge_noalloc 2 (⟨[[1,2,9,9,5,6]]⟩ : Heap Nat) ⟨0,0,2⟩ ⟨0,4,2⟩ =
        (h2, Except.ok s) ∧
      s.elems h2 = VecShard.elems ⟨0,0,2⟩ (⟨[[1,2,9,9,5,6]]⟩ : Heap Nat) ++
        VecShard.elems ⟨0,4,2⟩ (⟨[[1,2,9,9,5,6]]⟩ : Heap Nat) ∧
      h2.mems.length = (⟨[[1,2,9,9,5,6]]⟩ : Heap Nat).mems.length :=
  claim_C4 ⟨[[1,2,9,9,5,6]]⟩ ⟨0,0,2⟩ ⟨0,4,2⟩ (by decide) (by decide)
    (by decide) (by decide)

/-- Witness for claim C5: a non-adjacent pair blocked by a third live
handle. -/
theorem claim_C5_witness :
    ∃ e, (merge_noalloc 3 (⟨[[1,2,9,9,5,6]]⟩ : Heap Nat)
        ⟨0,0,2⟩ ⟨0,4,2⟩).2 = Except.error e ∧
      e.reason = WouldAlloc.OtherShardsLeft :=
  (claim_C5 3 ⟨[[1,2,9,9,5,6]]⟩ ⟨0,0,2⟩ ⟨0,4,2⟩ (by decide)).2.1.mpr
    (by decide)

/-- Witness for claim C6: an out-of-bounds split panics, and an in-bounds
split preserves the element sequence in place. -/
theorem claim_C6_witness :
    split_inplace_at (⟨0,1,4⟩ : VecShard) 5 = none ∧
    VecShard.elems ⟨0,1,2⟩ (⟨[[1,2,3,4,5]]⟩ : Heap Nat) ++
      VecShard.elems ⟨0,3,1⟩ (⟨[[1,2,3,4,5]]⟩ : Heap Nat) =
      VecShard.elems ⟨0,1,3⟩ (⟨[[1,2,3,4,5]]⟩ : Heap Nat) :=
  ⟨(claim_C6 Nat ⟨0,1,4⟩ 5).2.mpr (by decide),
   ((claim_C6 Nat ⟨0,1,3⟩ 2).1 ⟨0,1,2⟩ ⟨0,3,1⟩ (by decide)).2.2
     ⟨[[1,2,3,4,5]]⟩⟩

/-- Witness for claim C7: a sole-owner conversion of a shard that does not
start at the allocation base. -/
theorem claim_C7_witness :
    (intoVec 1 (⟨[[1,2,3,4,5]]⟩ : Heap Nat) ⟨0,2,3⟩).vec =
      VecShard.elems ⟨0,2,3⟩ (⟨[[1,2,3,4,5]]⟩ : Heap Nat) ∧
    ((intoVec 1 (⟨[[1,2,3,4,5]]⟩ : Heap Nat) ⟨0,2,3⟩).reusedAlloc =
        some 0 ↔ 1 = 1) ∧
    ((1 : Nat) ≠ 1 →
      (intoVec 1 (⟨[[1,2,3,4,5]]⟩ : Heap Nat) ⟨0,2,3⟩).heap =
        ⟨[[1,2,3,4,5]]⟩ ∧
      (intoVec 1 (⟨[[1,2,3,4,5]]⟩ : Heap Nat) ⟨0,2,3⟩).reusedAlloc =
        none) :=
  claim_C7 1 ⟨[[1,2,3,4,5]]⟩ ⟨0,2,3⟩ (by decide)

/-- Witness for claim C8: front and back draining steps on `[7,8,9]`. -/
theorem claim_C8_witness :
    (next (⟨[[7,8,9]]⟩ : Heap Nat) ⟨0,0,3⟩).1 =
      (VecShard.elems ⟨0,0,3⟩ (⟨[[7,8,9]]⟩ : Heap Nat)).head? ∧
    (next_back (⟨[[7,8,9]]⟩ : Heap Nat) ⟨0,0,3⟩).1 =
      (VecShard.elems ⟨0,0,3⟩ (⟨[[7,8,9]]⟩ : Heap Nat)).getLast? :=
  ⟨(claim_C8 ⟨[[7,8,9]]⟩ ⟨0,0,3⟩ (by decide)).1,
   (claim_C8 ⟨[[7,8,9]]⟩ ⟨0,0,3⟩ (by decide)).2.2.2.2.1⟩

/-- Witness for claim C9: dropping the middle shard of a four-slot
allocation with another handle still live. -/
theorem claim_C9_witness :
    (dropVecShard 2 [some 1, some 2, some 3, some 4]
        (⟨0,1,2⟩ : VecShard)).destroyed =
      readRange [some 1, some 2, some 3, some 4] 1 2 ∧
    ((dropVecShard 2 [some 1, some 2, some 3, some 4]
        (⟨0,1,2⟩ : VecShard)).freed = true ↔ 2 = 1) :=
  ⟨(claim_C9 2 [some 1, some 2, some 3, some 4] ⟨0,1,2⟩ (by decide)
      (by decide)).1,
   (claim_C9 2 [some 1, some 2, some 3, some 4] ⟨0,1,2⟩ (by decide)
      (by decide)).2.2.2⟩

/-- Witness for claim C10: splitting `⟨3,5,4⟩` at 1 and merging back in
place returns the original shard. -/
theorem claim_C10_witness :
    merge_inplace (⟨3,5,1⟩ : VecShard) ⟨3,6,3⟩ = Except.ok ⟨3,5,4⟩ :=
  claim_C10 ⟨3,5,4⟩ 1 ⟨3,5,1⟩ ⟨3,6,3⟩ (by decide)

end Vecshard
